import Mathlib

/-!
Verification development for the MCP tool-fetcher repository.

The Python source (config.py, mcp_client.py, app.py) is shallowly embedded:
pure functions become Lean functions, the module-level connection cache
becomes explicit state passing, exceptions become `Except`, and external
collaborators (the JSON decoder, the filesystem probes, the MCP session
library and the AI provider) become oracle records passed as arguments.
Decoded JSON values are modelled by the inductive `Json`; Python's dynamic
failures (`TypeError`, `AttributeError`, `KeyError`) are modelled alongside
`ValueError` in `PyError`, because the source distinguishes them at the API
boundary (`ValueError` is rendered as a configuration error, the rest fall
through to the generic handler).
-/

set_option linter.unusedVariables false

/-- A decoded Python JSON value (the result of a successful `json.loads`).
An `obj` carries its fields in insertion order with unique keys, matching a
decoded Python dict. -/
inductive Json where
  | null
  | bool (b : Bool)
  | num (n : Int)
  | str (s : String)
  | arr (elems : List Json)
  | obj (fields : List (String × Json))
  deriving Repr

/-- First-match association-list lookup, the model of reading a key out of a
decoded Python dict (keys are unique, so first match is the match). -/
def assocLookup {α : Type} : List (String × α) → String → Option α
  | [], _ => none
  | (k, v) :: rest, key => if k = key then some v else assocLookup rest key

/-- Python dict assignment `d[k] = v`: replace the value in place when the key
exists, append otherwise. -/
def assocInsert {α : Type} : List (String × α) → String → α → List (String × α)
  | [], k, v => [(k, v)]
  | (k', v') :: rest, k, v =>
    if k' = k then (k, v) :: rest else (k', v') :: assocInsert rest k v

/-- The filesystem/platform oracle used by `CommandResolver` in config.py:
`isFile` models `os.path.isfile`, `which` models `shutil.which`, `isWin`
models `sys.platform == 'win32'`, `username` models `os.getenv('USERNAME')`. -/
structure FS where
  isFile : String → Bool
  which : String → Option String
  isWin : Bool
  username : String

/-- ASCII lowercasing of one character, the semantics of Python `str.lower()`
on the ASCII command tokens this code base deals with. -/
def pyLowerChar (c : Char) : Char :=
  if 'A' ≤ c ∧ c ≤ 'Z' then Char.ofNat (c.toNat + 32) else c

/-- Python `str.lower()` (ASCII fragment). -/
def pyLower (s : String) : String := ⟨s.data.map pyLowerChar⟩

/-- config.py `CommandResolver.COMMAND_ALTERNATIVES`. -/
def COMMAND_ALTERNATIVES : List (String × List String) :=
  [ ("uvx", ["uvx", "uv"])
  , ("npx", ["npx", "npm"])
  , ("python", ["python", "python3", "py"])
  , ("node", ["node", "nodejs"]) ]

/-- config.py `CommandResolver._get_windows_search_paths`. -/
def windows_search_paths (username command : String) : List String :=
  [ "C:/Users/" ++ username ++ "/AppData/Local/Programs/Python/Python313/Scripts/"
      ++ command ++ ".exe"
  , "C:/Users/" ++ username ++ "/AppData/Roaming/npm/" ++ command ++ ".cmd"
  , "C:/Program Files/nodejs/" ++ command ++ ".cmd" ]

/-- config.py `CommandResolver.find_command`. -/
def find_command (fs : FS) (command : String) : Option String :=
  if fs.isFile command then some command
  else
    match fs.which command with
    | some found => some found
    | none =>
      if fs.isWin then (windows_search_paths fs.username command).find? fs.isFile
      else none

/-- config.py `CommandResolver.resolve_command`. -/
def resolve_command (fs : FS) (command : String) : String :=
  if fs.isFile command then command
  else
    match find_command fs command with
    | some resolved => resolved
    | none =>
      match assocLookup COMMAND_ALTERNATIVES (pyLower command) with
      | some alts =>
        match alts.findSome? (find_command fs) with
        | some resolved => resolved
        | none => command
      | none => command

/-- A filesystem oracle on which nothing exists (used for concrete runs). -/
def fsTriv : FS :=
  { isFile := fun _ => false, which := fun _ => none, isWin := false, username := "" }

/-- A host where `uvx` is absent in every probe but `uv` is on the PATH. -/
def uvxFS : FS :=
  { isFile := fun _ => false
  , which := fun s => if s = "uv" then some ("/usr/local/bin/uv") else none
  , isWin := false
  , username := "user" }

/-- The Python exception kinds `ConfigParser.parse_config` can surface: the
`ValueError` it raises itself (rendered as a configuration error by the API
layer), and the dynamic-typing failures the interpreter raises when the
decoded value has an unexpected shape (these fall through to the generic
exception handler). -/
inductive PyError where
  | valueError (msg : String)
  | typeError (msg : String)
  | attributeError (msg : String)
  | keyError (msg : String)
  deriving Repr, DecidableEq

/-- config.py `MCPServerConfig`. The dataclass annotations claim `str` /
`List[str]` / `Dict[str, str]`, but Python stores whatever decoded values the
raw configuration held, so the fields are modelled as `Json`. -/
structure MCPServerConfig where
  name : String
  command : Json
  args : Json
  env : Json
  deriving Repr

/-- Python substring test `sub in s` for the fixed keys used here. -/
def strContains (s sub : String) : Bool := (s.splitOn sub).length ≥ 2

/-- Python `key in value` on a decoded JSON value: key lookup on dicts,
membership on lists, substring test on strings, `TypeError` otherwise. -/
def pyContains (j : Json) (key : String) : Except PyError Bool :=
  match j with
  | .obj fields => .ok (fields.any (fun p => p.1 = key))
  | .arr elems => .ok (elems.any (fun e => match e with | .str s => s = key | _ => false))
  | .str s => .ok (strContains s key)
  | _ => .error (.typeError ("argument of type is not iterable"))

/-- Python `value[key]` with a string key on a decoded JSON value: dict
lookup (`KeyError` when absent), `TypeError` for every other shape. -/
def pyIndex (j : Json) (key : String) : Except PyError Json :=
  match j with
  | .obj fields =>
    match assocLookup fields key with
    | some v => .ok v
    | none => .error (.keyError key)
  | _ => .error (.typeError ("indices must not be str"))

/-- Python `value.get(key, default)`: only dicts have `.get`. -/
def pyGetD (j : Json) (key : String) (dflt : Json) : Except PyError Json :=
  match j with
  | .obj fields => .ok ((assocLookup fields key).getD dflt)
  | _ => .error (.attributeError ("get"))

/-- Python `value.items()`: only dicts have `.items`. -/
def pyItems (j : Json) : Except PyError (List (String × Json)) :=
  match j with
  | .obj fields => .ok fields
  | _ => .error (.attributeError ("items"))

/-- config.py `CommandResolver.resolve_command` applied to the decoded
`command` value. The source resolver operates on strings; a non-string
command sends the interpreter's path probing into a host `TypeError` before
any resolution can succeed. -/
def resolve_command_j (fs : FS) : Json → Except PyError Json
  | .str s => .ok (.str (resolve_command fs s))
  | _ => .error (.typeError ("expected str"))

/-- config.py `CommandResolver.normalize_server_config`: rebuild the
descriptor with the resolved command and the `args`/`env` taken verbatim. -/
def normalize_server_config (fs : FS) (c : MCPServerConfig) : Except PyError MCPServerConfig :=
  match resolve_command_j fs c.command with
  | .error e => .error e
  | .ok cmd => .ok { name := c.name, command := cmd, args := c.args, env := c.env }

/-- The per-server body of the loop in config.py `ConfigParser.parse_config`
(lines 148-163): check `command` membership, read the fields with their
defaults, and optionally auto-resolve. -/
def processServer (fs : FS) (auto : Bool) (name : String) (sc : Json) :
    Except PyError MCPServerConfig :=
  match pyContains sc "command" with
  | .error e => .error e
  | .ok false =>
    .error (.valueError ("Server '" ++ name ++ "' missing required 'command' field"))
  | .ok true =>
    match pyIndex sc "command" with
    | .error e => .error e
    | .ok cmd =>
      match pyGetD sc "args" (Json.arr []) with
      | .error e => .error e
      | .ok args =>
        match pyGetD sc "env" (Json.obj []) with
        | .error e => .error e
        | .ok env =>
          let base : MCPServerConfig := ⟨name, cmd, args, env⟩
          if auto then normalize_server_config fs base else .ok base

/-- The `for name, server_config in ... .items()` loop of `parse_config`:
process the servers in order, aborting on the first failing one. -/
def parse_servers (fs : FS) (auto : Bool) :
    List (String × Json) → Except PyError (List (String × MCPServerConfig))
  | [] => .ok []
  | (name, sc) :: rest =>
    match processServer fs auto name sc with
    | .error e => .error e
    | .ok cfg =>
      match parse_servers fs auto rest with
      | .error e => .error e
      | .ok others => .ok ((name, cfg) :: others)

/-- config.py `ConfigParser.parse_config`. The `json.loads` collaborator is
modelled by its outcome: `none` when it raises `JSONDecodeError` (turned into
the `ValueError` of line 142), `some j` when it yields the decoded value. -/
def parse_config (fs : FS) (decoded : Option Json) (auto_resolve : Bool) :
    Except PyError (List (String × MCPServerConfig)) :=
  match decoded with
  | none => .error (.valueError ("Invalid JSON"))
  | some config_data =>
    match pyContains config_data "mcpServers" with
    | .error e => .error e
    | .ok false => .error (.valueError ("Configuration must contain 'mcpServers' key"))
    | .ok true =>
      match pyIndex config_data "mcpServers" with
      | .error e => .error e
      | .ok serversJson =>
        match pyItems serversJson with
        | .error e => .error e
        | .ok items => parse_servers fs auto_resolve items

/-- Python truthiness of a decoded JSON value. -/
def jsonTruthy : Json → Bool
  | .null => false
  | .bool b => b
  | .num n => n != 0
  | .str s => s ≠ ""
  | .arr xs => !xs.isEmpty
  | .obj fs => !fs.isEmpty

/-- config.py `ConfigParser.validate_config`: advisory warnings only. -/
def validate_config (servers : List (String × MCPServerConfig)) : List String :=
  if servers.isEmpty then ["No servers configured"]
  else
    servers.flatMap (fun p =>
      (if !jsonTruthy p.2.command then ["Server '" ++ p.1 ++ "' has empty command"] else [])
        ++ (if p.2.name = "" then ["Server has empty name"] else []))

/-- mcp_client.py `MCPToolLister._build_client_config`: serialize the parsed
descriptors back into raw configuration shape; `env` is emitted only when
truthy. -/
def build_client_config (servers : List (String × MCPServerConfig)) : Json :=
  .obj [("mcpServers", .obj (servers.map (fun p =>
    (p.1, Json.obj ([("command", p.2.command), ("args", p.2.args)]
      ++ (if jsonTruthy p.2.env then [("env", p.2.env)] else []))))))]

/-- A cached connection entry in app.py: the `(lister, servers)` tuple stored
in `_connection_cache`. The live `MCPToolLister` is an external session
handle, modelled as an opaque numeric identifier handed out by the connect
oracle. -/
structure Entry where
  lister : Nat
  servers : List (String × MCPServerConfig)
  deriving Repr

/-- The process-wide `_connection_cache` dict of app.py, keyed by the
configuration fingerprint. -/
abbrev Cache := List (String × Entry)

/-- Counters for the externally observable work one `get_or_create_connection`
call performs: cache lookups, configuration parses attempted, connection
creations attempted. -/
structure Effects where
  lookups : Nat
  parses : Nat
  connects : Nat
  deriving Repr, DecidableEq

/-- The collaborators of app.py `get_or_create_connection`: `hash` models
`get_config_hash` (an md5 digest of the raw text — any deterministic string
function), `decode` models `json.loads`, `fs` the resolver's probes, and
`connect` models `MCPToolLister.connect_to_servers` (raising on failure,
yielding a fresh session handle on success). -/
structure ConnEnv where
  hash : String → String
  decode : String → Option Json
  fs : FS
  connect : List (String × MCPServerConfig) → Except String Nat

/-- An error escaping `get_or_create_connection`: either the `ValueError` (or
host error) from parsing, or the exception re-raised by
`connect_to_servers`. -/
inductive AppError where
  | parseErr (e : PyError)
  | connectErr (msg : String)
  deriving Repr, DecidableEq

/-- app.py `get_or_create_connection` (lines 35-50), with the module-level
cache passed and returned explicitly. The cache is written only on the
success path (line 49); every other path leaves it untouched. -/
def get_or_create_connection (env : ConnEnv) (cache : Cache) (config_json : String) :
    Except AppError Entry × Cache × Effects :=
  match assocLookup cache (env.hash config_json) with
  | some entry => (.ok entry, cache, ⟨1, 0, 0⟩)
  | none =>
    match parse_config env.fs (env.decode config_json) true with
    | .error e => (.error (.parseErr e), cache, ⟨1, 1, 0⟩)
    | .ok servers =>
      match env.connect servers with
      | .error m => (.error (.connectErr m), cache, ⟨1, 1, 1⟩)
      | .ok lister =>
        (.ok ⟨lister, servers⟩, (env.hash config_json, ⟨lister, servers⟩) :: cache, ⟨1, 1, 1⟩)

/-- One tool call requested by the model: the provider-assigned id, the
flattened function name, and the JSON-encoded argument string. -/
structure ToolCall where
  id : String
  fname : String
  args : String
  deriving Repr, DecidableEq

/-- The model's round-1 reply: `content` (may be absent) and the requested
tool calls (`[]` models both Python `None` and an empty list, which behave
identically under the truthiness test of line 439). -/
structure AssistantMessage where
  content : Option String
  tool_calls : List ToolCall
  deriving Repr, DecidableEq

/-- An entry of the `messages` conversation list built by
`process_ai_query`. -/
inductive Msg where
  | system (content : String)
  | user (content : String)
  | assistant (content : Option String) (tool_calls : List ToolCall)
  | tool (tool_call_id : String) (content : String)
  deriving Repr, DecidableEq

/-- One item of a tool-call result's `content` sequence: an item bearing a
`text` attribute contributes that text, anything else contributes its
`str()` rendering (lines 377-382). -/
inductive ContentItem where
  | text (t : String)
  | other (s : String)
  deriving Repr, DecidableEq

/-- The object returned by `session.call_tool`: `content` is `none` when the
attribute is missing, `some items` otherwise; `str_repr` is the object's
`str()` rendering used when `content` is missing or falsy (empty). -/
structure CallResult where
  content : Option (List ContentItem)
  str_repr : String
  deriving Repr, DecidableEq

/-- The `result_text` extraction of app.py lines 376-384. -/
def resultText (r : CallResult) : String :=
  match r.content with
  | some items =>
    if items.isEmpty then r.str_repr
    else items.foldl (fun acc it => acc ++ (match it with | .text t => t | .other s => s)) ""
  | none => r.str_repr

/-- The dict returned by a successful `execute_tool_call`. -/
structure ToolResult where
  tool_call_id : String
  content : String
  server : String
  tool : String
  function_name : String
  deriving Repr, DecidableEq

/-- What one `execute_tool_call` task delivers to `asyncio.gather(...,
return_exceptions=True)`: a result dict, the `None` returned for a function
name absent from the mapping, or a captured exception. -/
inductive ExecOutcome where
  | ok (r : ToolResult)
  | noneResult
  | exn (msg : String)
  deriving Repr, DecidableEq

/-- The collaborators of `execute_tool_call`: `decodeArgs` models
`json.loads` on the argument string (raising on failure), and `callTool`
models `lister.client.get_session(server).call_tool(tool, args)` (an error
covers both a session-lookup failure and a raising tool call). -/
structure ExecEnv where
  decodeArgs : String → Option Json
  callTool : String → String → Json → Except String CallResult

/-- app.py `execute_tool_call` (lines 360-393) as one gathered task. -/
def execute_tool_call (env : ExecEnv) (mapping : List (String × String × String))
    (tool_call : ToolCall) : ExecOutcome :=
  match env.decodeArgs tool_call.args with
  | none => .exn ("invalid tool arguments")
  | some arguments =>
    match assocLookup mapping tool_call.fname with
    | none => .noneResult
    | some st =>
      match env.callTool st.1 st.2 arguments with
      | .error m => .exn m
      | .ok result =>
        .ok { tool_call_id := tool_call.id
            , content := resultText result
            , server := st.1
            , tool := st.2
            , function_name := tool_call.fname }

/-- One tool as delivered in the request's `available_tools` payload:
`tool['name']` is read unconditionally, `description` and `inputSchema` via
`.get` with defaults. -/
structure ToolInfo where
  name : String
  description : Option String
  inputSchema : Option Json
  deriving Repr

/-- One entry of the flattened OpenAI function list. -/
structure OpenAIFunction where
  name : String
  description : String
  parameters : Json
  deriving Repr

/-- app.py `build_tools_schema` (lines 332-357): the flattened function list
and the `function_name -> (server, tool)` mapping dict. -/
def build_tools_schema (available : List (String × List ToolInfo)) :
    List OpenAIFunction × List (String × String × String) :=
  available.foldl (fun acc p =>
    p.2.foldl (fun acc2 tool =>
      let function_name := p.1 ++ "_" ++ tool.name
      ( acc2.1 ++ [{ name := function_name
                   , description := tool.description.getD ("No description")
                   , parameters := tool.inputSchema.getD
                       (Json.obj [("type", .str "object"), ("properties", .obj [])]) }]
      , assocInsert acc2.2 function_name (p.1, tool.name) )) acc) ([], [])

/-- The fixed placeholder of app.py line 479. -/
def failedPlaceholder : String := "Tool execution failed or returned no result."

/-- The `results_by_id` dict of app.py lines 453-457: fold the gathered
outcomes in order, keeping result dicts keyed by their `tool_call_id` and
skipping exceptions and `None`s. -/
def results_by_id_from (items : List ExecOutcome) : List (String × ToolResult) :=
  items.foldl (fun m item =>
    match item with
    | .ok r => assocInsert m r.tool_call_id r
    | _ => m) []

/-- The response-building loop of app.py lines 460-480: one tool message per
requested call, in request order, with the successful calls also recorded in
`tool_calls_made`. -/
def build_tool_results (results_by_id : List (String × ToolResult)) :
    List ToolCall → List Msg × List (String × String)
  | [] => ([], [])
  | tc :: rest =>
    match assocLookup results_by_id tc.id with
    | some r =>
      (Msg.tool r.tool_call_id r.content :: (build_tool_results results_by_id rest).1,
       (r.server, r.tool) :: (build_tool_results results_by_id rest).2)
    | none =>
      (Msg.tool tc.id failedPlaceholder :: (build_tool_results results_by_id rest).1,
       (build_tool_results results_by_id rest).2)

/-- The system instruction of app.py lines 418-420. -/
def systemPrompt : String :=
  "You are a helpful AI assistant with access to MCP tools. Use the available tools to answer user questions accurately. When using tools, provide clear explanations of what you found."

/-- Render an escaping exception the way the top-level handler of
`process_ai_query` does (`str(e)`). -/
def AppError.toMessage : AppError → String
  | .parseErr (.valueError m) => m
  | .parseErr (.typeError m) => m
  | .parseErr (.attributeError m) => m
  | .parseErr (.keyError m) => m
  | .connectErr m => m

/-- The collaborators of `process_ai_query`: the connection environment, the
tool-execution environment, the model's round-1 reply, and the model's
round-2 answer as a function of the conversation it is sent. -/
structure AIEnv where
  conn : ConnEnv
  exec : ExecEnv
  round1 : AssistantMessage
  round2 : List Msg → Option String

/-- Everything observable about one `process_ai_query` run: the structured
result (`response`, `tool_calls`) or error, the connection cache after the
run, the cache/parse/connect work performed, and the conversation sent to
the model in round 2 (`none` when the loop ended after round 1). -/
structure QueryTrace where
  result : Except String (Option String × List (String × String))
  cache : Cache
  effects : Effects
  round2_messages : Option (List Msg)
  deriving Repr

/-- app.py `process_ai_query` (lines 396-523). -/
def process_ai_query (env : AIEnv) (cache : Cache) (config_json user_query : String)
    (available_tools : List (String × List ToolInfo)) : QueryTrace :=
  let schema := build_tools_schema available_tools
  let tool_mapping := schema.2
  let messages : List Msg := [.system systemPrompt, .user user_query]
  let assistant_message := env.round1
  if assistant_message.tool_calls.isEmpty then
    { result := .ok (assistant_message.content, [])
    , cache := cache
    , effects := ⟨0, 0, 0⟩
    , round2_messages := none }
  else
    match get_or_create_connection env.conn cache config_json with
    | (.error e, cache', eff) =>
      { result := .error e.toMessage, cache := cache', effects := eff, round2_messages := none }
    | (.ok _entry, cache', eff) =>
      let raw := assistant_message.tool_calls.map (execute_tool_call env.exec tool_mapping)
      let grouped := build_tool_results (results_by_id_from raw) assistant_message.tool_calls
      let assistant_dict := Msg.assistant assistant_message.content assistant_message.tool_calls
      let messages2 := messages ++ [assistant_dict] ++ grouped.1
      { result := .ok (env.round2 messages2, grouped.2)
      , cache := cache'
      , effects := eff
      , round2_messages := some messages2 }

/-- Is a message a tool-role response message? -/
def msgIsTool : Msg → Bool
  | .tool _ _ => true
  | _ => false

/-- Select the tool-role messages of a conversation. -/
def toolMessages (msgs : List Msg) : List Msg :=
  msgs.filter msgIsTool

/-- The message the round-2 conversation is required to contain for a
requested call with the given outcome: the result's text when a result dict
with this call's id is available, the fixed placeholder otherwise. -/
def outcomeMsg (tc : ToolCall) : ExecOutcome → Msg
  | .ok r => .tool r.tool_call_id r.content
  | .noneResult => .tool tc.id failedPlaceholder
  | .exn _ => .tool tc.id failedPlaceholder

/-- The shape of a tool object's `inputSchema` attribute as the branches of
mcp_client.py `_extract_input_schema` distinguish them: a plain dict, an
object with a `model_dump` method, an object without `model_dump` but with a
`__dict__` attribute dictionary, or a value with neither. -/
inductive SchemaVal where
  | dict (fields : List (String × Json))
  | dumpable (dump : List (String × Json))
  | withDict (attrs : List (String × Json))
  | plain
  deriving Repr

/-- mcp_client.py `MCPToolLister._extract_input_schema` (lines 76-100),
applied to the tool's `inputSchema` attribute (`none` when the attribute is
missing). -/
def extract_input_schema : Option SchemaVal → List (String × Json)
  | none => []
  | some (.dict fields) => fields
  | some (.dumpable dump) => dump
  | some (.withDict attrs) => attrs
  | some .plain => []

/-- A tool object as returned by the session's `list_tools`: the attributes
`get_tools_from_server` reads via `getattr`, plus the object's `str()`
rendering used as the name default. -/
structure RawTool where
  name : Option String
  description : Option String
  inputSchema : Option SchemaVal
  str_repr : String
  deriving Repr

/-- The dictionary `get_tools_from_server` builds per tool. -/
structure ToolDescriptor where
  name : String
  description : String
  inputSchema : List (String × Json)
  deriving Repr

/-- mcp_client.py `MCPToolLister.get_tools_from_server` (lines 102-131): on
any listing failure the exception is caught and an empty list returned; on
success every tool is converted, never raising. -/
def tools_from_server (listResult : Except String (List RawTool)) : List ToolDescriptor :=
  match listResult with
  | .error _ => []
  | .ok tool_list =>
    tool_list.map (fun t =>
      { name := t.name.getD t.str_repr
      , description := t.description.getD ("No description")
      , inputSchema := extract_input_schema t.inputSchema })

/-- A decoded demo configuration with one npx-based server. -/
def demoDecoded : Json :=
  .obj [("mcpServers", .obj [("fetch",
    .obj [("command", .str "npx"), ("args", .arr [.str "-y", .str "pkg"])])])]

/-- A concrete connection environment: identity fingerprint, a decoder that
accepts exactly the raw text "demo", no resolvable commands, and a connect
oracle that always hands out session handle 7. -/
def demoConnEnv : ConnEnv :=
  { hash := fun s => s
  , decode := fun s => if s = "demo" then some demoDecoded else none
  , fs := fsTriv
  , connect := fun _ => .ok 7 }

/-- The entry `get_or_create_connection` builds for `demoConnEnv` on the raw
text "demo". -/
def demoEntry : Entry :=
  ⟨7, [("fetch", ⟨"fetch", .str "npx", .arr [.str "-y", .str "pkg"], .obj []⟩)]⟩

/-- Does a schema value take the already-a-dict branch? -/
def isDictSchema : Option SchemaVal → Bool
  | some (.dict _) => true
  | _ => false

/-- Does a schema value take the `model_dump` branch? -/
def isDumpableSchema : Option SchemaVal → Bool
  | some (.dumpable _) => true
  | _ => false

/-- The decoded configuration exhibiting the C7 counterexample: a server
whose `command` key is present but holds the empty string. -/
def emptyCommandCfg : Json :=
  .obj [("mcpServers", .obj [("a", .obj [("command", .str "")])])]

/-- Is a parse outcome the `ValueError` kind — the single `ConfigError` kind
the spec's taxonomy names? -/
def isValueError {α : Type} : Except PyError α → Bool
  | .error (.valueError _) => true
  | _ => false

/-- Does a decoded value carry a top-level `mcpServers` key? Only a mapping
can; every other decoded shape lacks it. -/
def hasMcpKey : Json → Bool
  | .obj fields => fields.any (fun p => p.1 = "mcpServers")
  | _ => false

/-- The pointwise relation of the C5 theorem. -/
def resolvedRel (fs : FS) (p q : String × MCPServerConfig) : Prop :=
  p.1 = q.1 ∧ q.2.name = p.2.name ∧
    (∃ s, p.2.command = Json.str s ∧ q.2.command = Json.str (resolve_command fs s)) ∧
    q.2.args = p.2.args ∧ q.2.env = p.2.env

/-- Is this gathered outcome a result dict whose id is `key`? -/
def okFor (key : String) : ExecOutcome → Bool
  | .ok r => r.tool_call_id = key
  | .noneResult => false
  | .exn _ => false

/-- The dict entry one gathered outcome would contribute for `key`. -/
def okResult (key : String) : ExecOutcome → Option ToolResult
  | .ok r => if r.tool_call_id = key then some r else none
  | .noneResult => none
  | .exn _ => none

/-- The result dict the `results_by_id` dict ends up holding for `key`: the
last result with this id among the gathered outcomes (later assignments
overwrite earlier ones). -/
def lastOkFor (key : String) : List ExecOutcome → Option ToolResult
  | [] => none
  | item :: rest =>
    match lastOkFor key rest with
    | some r => some r
    | none => okResult key item

/-- `results_by_id_from` with an explicit accumulator, for induction. -/
def results_by_id_fold (acc : List (String × ToolResult)) :
    List ExecOutcome → List (String × ToolResult)
  | [] => acc
  | .ok r :: rest => results_by_id_fold (assocInsert acc r.tool_call_id r) rest
  | .noneResult :: rest => results_by_id_fold acc rest
  | .exn _ :: rest => results_by_id_fold acc rest

/-- The conversation `process_ai_query` sends in round 2 when the model
requested tool calls and the connection came up. -/
def round2Conversation (env : AIEnv) (q : String)
    (tools : List (String × List ToolInfo)) : List Msg :=
  [Msg.system systemPrompt, Msg.user q]
    ++ [Msg.assistant env.round1.content env.round1.tool_calls]
    ++ (build_tool_results
          (results_by_id_from (env.round1.tool_calls.map
            (execute_tool_call env.exec (build_tools_schema tools).2)))
          env.round1.tool_calls).1

/-- A concrete execution environment: every argument string decodes, the tool
named `boom` raises, every other tool returns a text result. -/
def demoExecEnv : ExecEnv :=
  { decodeArgs := fun s => if s = "{}" then some (.obj []) else none
  , callTool := fun server tool _args =>
      if tool = "boom" then .error ("boom")
      else .ok { content := some [.text ("ok:" ++ server ++ ":" ++ tool)], str_repr := "r" } }

/-- Two requested calls: the first succeeds, the second raises. -/
def demoToolCalls : List ToolCall :=
  [⟨"call1", "srv_echo", "{}"⟩, ⟨"call2", "srv_boom", "{}"⟩]

/-- The available tools matching `demoToolCalls`. -/
def demoTools : List (String × List ToolInfo) :=
  [("srv", [⟨"echo", some ("Echo tool"), none⟩, ⟨"boom", none, none⟩])]

/-- A concrete AI environment whose round-1 reply requests `demoToolCalls`. -/
def demoAIEnv : AIEnv :=
  { conn := demoConnEnv
  , exec := demoExecEnv
  , round1 := { content := none, tool_calls := demoToolCalls }
  , round2 := fun _ => some ("final answer") }

theorem assocLookup_assocInsert {α : Type} (l : List (String × α)) (k key : String) (v : α) :
    assocLookup (assocInsert l k v) key = if k = key then some v else assocLookup l key := by
  induction l with
  | nil => simp [assocInsert, assocLookup]
  | cons hd tl ih =>
    obtain ⟨k', v'⟩ := hd
    by_cases hk : k' = k
    · subst hk
      by_cases hkey : k' = key <;> simp [assocInsert, assocLookup, hkey]
    · by_cases hkey : k' = key
      · subst hkey
        have : k ≠ k' := fun h => hk h.symm
        simp [assocInsert, assocLookup, hk, this]
      · simp [assocInsert, assocLookup, hk, hkey, ih]

/-- C2: calling `get_or_create_connection` a second time with byte-identical
raw configuration text returns the very entry cached by the first successful
call, leaves the cache untouched, and performs no parsing and no connection
creation (only the fingerprint computation and one cache lookup). -/
theorem getOrCreate_idempotent (env : ConnEnv) (cache : Cache) (s : String)
    (entry : Entry) (cache' : Cache) (eff : Effects)
    (h : get_or_create_connection env cache s = (.ok entry, cache', eff)) :
    get_or_create_connection env cache' s = (.ok entry, cache', ⟨1, 0, 0⟩) := by
  unfold get_or_create_connection at h ⊢
  cases hl : assocLookup cache (env.hash s) with
  | some e =>
    simp only [hl, Prod.mk.injEq, Except.ok.injEq] at h
    obtain ⟨he, hc, _⟩ := h
    subst he; subst hc
    rw [hl]
  | none =>
    simp only [hl] at h
    cases hp : parse_config env.fs (env.decode s) true with
    | error e => simp [hp] at h
    | ok servers =>
      simp only [hp] at h
      cases hc : env.connect servers with
      | error m => simp [hc] at h
      | ok lister =>
        simp only [hc, Prod.mk.injEq, Except.ok.injEq] at h
        obtain ⟨he, hcc, _⟩ := h
        subst he; subst hcc
        simp [assocLookup]

/-- C2 witness: on an empty cache, a first call with the raw text "demo"
creates and caches `demoEntry`; the second call returns it as-is with zero
parses and zero connections. -/
theorem getOrCreate_idempotent_witness :
    get_or_create_connection demoConnEnv [("demo", demoEntry)] "demo"
      = (.ok demoEntry, [("demo", demoEntry)], ⟨1, 0, 0⟩) :=
  getOrCreate_idempotent demoConnEnv [] "demo" demoEntry [("demo", demoEntry)] ⟨1, 1, 1⟩ rfl

/-- C10: when `get_or_create_connection` fails (parse error or connection
error), the cache is unchanged, no entry is stored under the fingerprint
(the lookup was and stays a miss), and a retry with the same raw text
attempts parsing again rather than returning a broken entry. -/
theorem getOrCreate_error_leaves_cache_unchanged (env : ConnEnv) (cache : Cache) (s : String)
    (e : AppError) (cache' : Cache) (eff : Effects)
    (h : get_or_create_connection env cache s = (.error e, cache', eff)) :
    cache' = cache ∧ assocLookup cache (env.hash s) = none ∧
      (get_or_create_connection env cache' s).2.2.parses = 1 := by
  unfold get_or_create_connection at h ⊢
  cases hl : assocLookup cache (env.hash s) with
  | some entry => simp [hl] at h
  | none =>
    simp only [hl] at h
    cases hp : parse_config env.fs (env.decode s) true with
    | error pe =>
      simp only [hp, Prod.mk.injEq, Except.error.injEq] at h
      obtain ⟨_, hc, _⟩ := h
      subst hc
      refine ⟨rfl, rfl, ?_⟩
      simp [hl, hp]
    | ok servers =>
      simp only [hp] at h
      cases hc : env.connect servers with
      | error m =>
        simp only [hc, Prod.mk.injEq, Except.error.injEq] at h
        obtain ⟨_, hcc, _⟩ := h
        subst hcc
        refine ⟨rfl, rfl, ?_⟩
        simp [hl, hp, hc]
      | ok lister => simp [hc] at h

/-- C10 witness: a raw text the decoder rejects produces a parse failure, the
empty cache stays empty, and the retry parses again. -/
theorem getOrCreate_error_leaves_cache_unchanged_witness :
    ([] : Cache) = [] ∧ assocLookup ([] : Cache) (demoConnEnv.hash "bad") = none ∧
      (get_or_create_connection demoConnEnv [] "bad").2.2.parses = 1 :=
  getOrCreate_error_leaves_cache_unchanged demoConnEnv [] "bad"
    (.parseErr (.valueError ("Invalid JSON"))) [] ⟨1, 1, 0⟩ rfl

/-- C9: when the model's first response carries no tool calls,
`process_ai_query` answers with that response's content directly, reports an
empty `tool_calls` list, runs no second round, and neither creates a
connection nor even touches the cache. -/
theorem query_no_toolcalls_direct (env : AIEnv) (cache : Cache) (cfg q : String)
    (tools : List (String × List ToolInfo)) (h : env.round1.tool_calls = []) :
    process_ai_query env cache cfg q tools =
      { result := .ok (env.round1.content, []), cache := cache, effects := ⟨0, 0, 0⟩
      , round2_messages := none } := by
  simp only [process_ai_query, h, List.isEmpty_nil, if_true]

/-- C9 witness: a concrete run whose round-1 reply has no tool calls. -/
theorem query_no_toolcalls_direct_witness :
    process_ai_query
      { conn := demoConnEnv
      , exec := { decodeArgs := fun _ => some (.obj []), callTool := fun _ _ _ => .error "unused" }
      , round1 := { content := some "Paris.", tool_calls := [] }
      , round2 := fun _ => some "unused" } [] "demo" "q" [] =
      { result := .ok (some "Paris.", []), cache := [], effects := ⟨0, 0, 0⟩
      , round2_messages := none } :=
  query_no_toolcalls_direct _ [] "demo" "q" [] rfl

/-- C6: when `find_command` fails for a token, `resolve_command` falls back
to the fixed synonym table keyed by the lowercased token: it returns the
first alternative that `find_command` resolves, and when none resolves (or
the token has no synonyms) it returns the original token unchanged. The
function is total, so it never raises. -/
theorem resolve_command_synonym_fallback (fs : FS) (name : String)
    (hfind : find_command fs name = none) :
    (∀ alts p, assocLookup COMMAND_ALTERNATIVES (pyLower name) = some alts →
        alts.findSome? (find_command fs) = some p → resolve_command fs name = p) ∧
    (∀ alts, assocLookup COMMAND_ALTERNATIVES (pyLower name) = some alts →
        alts.findSome? (find_command fs) = none → resolve_command fs name = name) ∧
    (assocLookup COMMAND_ALTERNATIVES (pyLower name) = none → resolve_command fs name = name) := by
  have hnf : fs.isFile name = false := by
    cases hx : fs.isFile name with
    | false => rfl
    | true => rw [find_command, hx] at hfind; simp at hfind
  refine ⟨?_, ?_, ?_⟩
  · intro alts p hlook hsome
    rw [resolve_command, hnf, hfind, hlook]
    simp [hsome]
  · intro alts hlook hnone
    rw [resolve_command, hnf, hfind, hlook]
    simp [hnone]
  · intro hlook
    rw [resolve_command, hnf, hfind, hlook]
    rfl

/-- C6 witness: on a host where `uvx` resolves nowhere but `uv` is on the
PATH, `resolve_command "uvx"` returns the resolved path of `uv` (the first
alternative of the synonym table that resolves). -/
theorem resolve_command_synonym_fallback_witness :
    resolve_command uvxFS "uvx" = "/usr/local/bin/uv" :=
  (resolve_command_synonym_fallback uvxFS "uvx" rfl).1 ["uvx", "uv"] "/usr/local/bin/uv" rfl rfl

/-- C8 counterexample: a schema value that is neither a dict nor exposes a
structured-dump method — an ordinary object carrying only a `__dict__`
attribute dictionary — does not normalize to the empty schema: line 98 of
mcp_client.py returns `schema.__dict__` instead. -/
theorem extract_schema_unrecognized_counterexample :
    isDictSchema (some (.withDict [("a", Json.num 1)])) = false ∧
    isDumpableSchema (some (.withDict [("a", Json.num 1)])) = false ∧
    extract_input_schema (some (.withDict [("a", Json.num 1)])) = [("a", Json.num 1)] ∧
    [("a", Json.num 1)] ≠ ([] : List (String × Json)) :=
  ⟨rfl, rfl, rfl, by simp⟩

/-- C8 amended: schema extraction is total and yields a plain mapping — an
already-dict schema is returned unchanged, an object exposing a
structured-dump method is dumped, an object exposing (only) an attribute
dictionary yields that attribute mapping, and only a shape with none of the
three normalizes to an empty schema; tool conversion applies it to every
listed tool, so no shape fails the discovery of the whole server. -/
theorem extract_schema_total_cases (s : Option SchemaVal) :
    (∀ fields, s = some (.dict fields) → extract_input_schema s = fields) ∧
    (∀ dump, s = some (.dumpable dump) → extract_input_schema s = dump) ∧
    (∀ attrs, s = some (.withDict attrs) → extract_input_schema s = attrs) ∧
    ((s = none ∨ s = some .plain) → extract_input_schema s = []) ∧
    (∀ ts : List RawTool,
      (tools_from_server (.ok ts)).map ToolDescriptor.inputSchema
        = ts.map (fun t => extract_input_schema t.inputSchema)) := by
  refine ⟨?_, ?_, ?_, ?_, ?_⟩
  · intro fields hs; subst hs; rfl
  · intro dump hs; subst hs; rfl
  · intro attrs hs; subst hs; rfl
  · rintro (hs | hs) <;> (subst hs; rfl)
  · intro ts
    simp [tools_from_server, List.map_map]

/-- C8 amended witness: concrete instances of the dict branch and of the
truly-unrecognized branch. -/
theorem extract_schema_total_cases_witness :
    extract_input_schema (some (.dict [("type", Json.str "object")]))
      = [("type", Json.str "object")] ∧
    extract_input_schema none = [] :=
  ⟨(extract_schema_total_cases (some (.dict [("type", Json.str "object")]))).1 _ rfl,
   (extract_schema_total_cases none).2.2.2.1 (Or.inl rfl)⟩

/-- C7 counterexample: `parse_config` accepts a server whose `command` is the
empty string — the parser checks only that the key is present — so the
"every descriptor has a non-empty command" invariant does not hold for the
Configuration it returns. -/
theorem parse_accepts_empty_command :
    parse_config fsTriv (some emptyCommandCfg) true
      = .ok [("a", ⟨"a", .str "", .arr [], .obj []⟩)] ∧
    jsonTruthy (Json.str "") = false ∧
    ¬(∀ servers, parse_config fsTriv (some emptyCommandCfg) true = .ok servers →
        ∀ p ∈ servers, p.2.command ≠ Json.str "") :=
  ⟨rfl, rfl, fun h =>
    (h [("a", ⟨"a", .str "", .arr [], .obj []⟩)] rfl
      ("a", ⟨"a", .str "", .arr [], .obj []⟩) (by simp)) rfl⟩

/-- C7 amended: `parse_config` guarantees only presence of the `command`
key; a descriptor whose command is empty (falsy) is accepted by parse and is
instead reported as a warning by the advisory `validate_config`. -/
theorem parse_empty_command_flagged (fs : FS) (decoded : Option Json)
    (servers : List (String × MCPServerConfig)) (nm : String) (cfg : MCPServerConfig)
    (hparse : parse_config fs decoded true = .ok servers)
    (hmem : (nm, cfg) ∈ servers) (hempty : jsonTruthy cfg.command = false) :
    ("Server '" ++ nm ++ "' has empty command") ∈ validate_config servers := by
  have hne : servers ≠ [] := List.ne_nil_of_mem hmem
  unfold validate_config
  rw [if_neg (by simp [hne])]
  refine List.mem_flatMap.mpr ⟨(nm, cfg), hmem, ?_⟩
  rw [hempty]
  simp

/-- C7 amended witness: the empty-command configuration parses successfully
and its descriptor is flagged by `validate_config`. -/
theorem parse_empty_command_flagged_witness :
    ("Server '" ++ "a" ++ "' has empty command")
      ∈ validate_config [("a", ⟨"a", .str "", .arr [], .obj []⟩)] :=
  parse_empty_command_flagged fsTriv (some emptyCommandCfg)
    [("a", ⟨"a", .str "", .arr [], .obj []⟩)] "a" ⟨"a", .str "", .arr [], .obj []⟩
    rfl (by simp) rfl

/-- C4 counterexample: the input text "5" is well-formed JSON that lacks the
top-level `mcpServers` key, yet `parse_config` fails with the interpreter's
`TypeError` (from `'mcpServers' not in 5`), not with the single
`ConfigError` (`ValueError`) kind the claim requires. -/
theorem parse_nonmapping_toplevel_counterexample :
    hasMcpKey (Json.num 5) = false ∧
    parse_config fsTriv (some (Json.num 5)) true
      = .error (.typeError ("argument of type is not iterable")) ∧
    isValueError (parse_config fsTriv (some (Json.num 5)) true) = false :=
  ⟨rfl, rfl, rfl⟩

/-- A key that `assocLookup` finds is reported present by `List.any`. -/
theorem any_key_of_assocLookup {α : Type} (l : List (String × α)) (k : String) (v : α)
    (h : assocLookup l k = some v) : l.any (fun p => p.1 = k) = true := by
  induction l with
  | nil => simp [assocLookup] at h
  | cons hd tl ih =>
    obtain ⟨k', v'⟩ := hd
    by_cases hk : k' = k
    · simp [hk]
    · rw [assocLookup, if_neg hk] at h
      simp [ih h]

/-- A server definition that is a mapping carrying a string `command` is
accepted by the per-server parsing step (with or without auto-resolve). -/
theorem processServer_ok_of_command_str (fs : FS) (auto : Bool) (name : String)
    (scf : List (String × Json)) (s : String)
    (hcmd : assocLookup scf "command" = some (.str s)) :
    ∃ cfg, processServer fs auto name (Json.obj scf) = .ok cfg := by
  have hany := any_key_of_assocLookup scf "command" (.str s) hcmd
  unfold processServer
  simp only [pyContains, hany, pyIndex, hcmd, pyGetD]
  cases auto with
  | false => exact ⟨_, rfl⟩
  | true => exact ⟨_, rfl⟩

/-- Well-shaped server definitions (mappings whose `command`, when present,
is a string) with at least one definition missing `command` make the server
loop fail with the missing-command `ValueError`. -/
theorem parse_servers_missing_command (fs : FS) (auto : Bool) (items : List (String × Json))
    (hshape : ∀ p ∈ items, ∃ scf, p.2 = Json.obj scf ∧
        (scf.any (fun q => q.1 = "command") = true →
          ∃ s, assocLookup scf "command" = some (.str s)))
    (hmiss : ∃ p ∈ items, ∀ scf, p.2 = Json.obj scf →
        scf.any (fun q => q.1 = "command") = false) :
    ∃ nm, parse_servers fs auto items
      = .error (.valueError ("Server '" ++ nm ++ "' missing required 'command' field")) := by
  induction items with
  | nil => obtain ⟨p, hp, _⟩ := hmiss; simp at hp
  | cons hd rest ih =>
    obtain ⟨name, sc⟩ := hd
    obtain ⟨scf, hsc, hstr⟩ := hshape (name, sc) (by simp)
    simp only at hsc
    subst hsc
    cases hany : scf.any (fun q => q.1 = "command") with
    | false =>
      refine ⟨name, ?_⟩
      rw [parse_servers]
      have hps : processServer fs auto name (Json.obj scf)
          = .error (.valueError ("Server '" ++ name ++ "' missing required 'command' field")) := by
        unfold processServer
        simp only [pyContains, hany]
      rw [hps]
    | true =>
      obtain ⟨s, hcmd⟩ := hstr hany
      obtain ⟨cfg, hok⟩ := processServer_ok_of_command_str fs auto name scf s hcmd
      have hrest : ∃ p ∈ rest, ∀ scf', p.2 = Json.obj scf' →
          scf'.any (fun q => q.1 = "command") = false := by
        obtain ⟨p, hp, hmp⟩ := hmiss
        rcases List.mem_cons.mp hp with heq | hmemr
        · subst heq
          have := hmp scf rfl
          rw [hany] at this
          cases this
        · exact ⟨p, hmemr, hmp⟩
      obtain ⟨nm, hrec⟩ := ih (fun p hp => hshape p (by simp [hp])) hrest
      refine ⟨nm, ?_⟩
      rw [parse_servers, hok, hrec]

/-- C4 amended: every parse failure the claim enumerates yields the single
`ConfigError` (`ValueError`) kind and no partial Configuration — provided
the decoded input is shaped as the data model describes (a mapping of
mapping-valued server definitions whose `command`, when present, is a
string). An input that decodes to a non-mapping (or a non-mapping server
definition) instead surfaces the interpreter's type error, still producing
no partial Configuration. -/
theorem parse_failures_are_config_errors (fs : FS) (decoded : Option Json) (auto : Bool) :
    (decoded = none → parse_config fs decoded auto = .error (.valueError ("Invalid JSON"))) ∧
    (∀ fields, decoded = some (.obj fields) →
        fields.any (fun p => p.1 = "mcpServers") = false →
        parse_config fs decoded auto
          = .error (.valueError ("Configuration must contain 'mcpServers' key"))) ∧
    (∀ fields items, decoded = some (.obj fields) →
        assocLookup fields "mcpServers" = some (.obj items) →
        (∀ p ∈ items, ∃ scf, p.2 = Json.obj scf ∧
          (scf.any (fun q => q.1 = "command") = true →
            ∃ s, assocLookup scf "command" = some (.str s))) →
        (∃ p ∈ items, ∀ scf, p.2 = Json.obj scf →
            scf.any (fun q => q.1 = "command") = false) →
        ∃ nm, parse_config fs decoded auto
          = .error (.valueError ("Server '" ++ nm ++ "' missing required 'command' field"))) := by
  refine ⟨?_, ?_, ?_⟩
  · intro h; subst h; rfl
  · intro fields hd hany
    subst hd
    unfold parse_config
    simp only [pyContains, hany]
  · intro fields items hd hlook hshape hmiss
    subst hd
    have hany := any_key_of_assocLookup fields "mcpServers" (.obj items) hlook
    obtain ⟨nm, hps⟩ := parse_servers_missing_command fs auto items hshape hmiss
    refine ⟨nm, ?_⟩
    unfold parse_config
    simp only [pyContains, hany, pyIndex, hlook, pyItems, hps]

/-- C4 amended witness: the three enumerated failure shapes at concrete
inputs. -/
theorem parse_failures_are_config_errors_witness :
    parse_config fsTriv none true = .error (.valueError ("Invalid JSON")) ∧
    parse_config fsTriv (some (.obj [])) true
      = .error (.valueError ("Configuration must contain 'mcpServers' key")) ∧
    ∃ nm, parse_config fsTriv (some (.obj [("mcpServers", .obj [("a", .obj [])])])) true
      = .error (.valueError ("Server '" ++ nm ++ "' missing required 'command' field")) :=
  ⟨(parse_failures_are_config_errors fsTriv none true).1 rfl,
   (parse_failures_are_config_errors fsTriv (some (.obj [])) true).2.1 [] rfl rfl,
   (parse_failures_are_config_errors fsTriv
      (some (.obj [("mcpServers", .obj [("a", .obj [])])])) true).2.2
     [("mcpServers", .obj [("a", .obj [])])] [("a", .obj [])] rfl rfl
     (by intro p hp
         rcases List.mem_singleton.mp hp with rfl
         exact ⟨[], rfl, by simp⟩)
     ⟨("a", .obj []), by simp,
      by intro scf h
         cases h
         rfl⟩⟩

/-- A successfully parsed descriptor carries the server's key as its name. -/
theorem processServer_name (fs : FS) (auto : Bool) (name : String) (sc : Json)
    (cfg : MCPServerConfig) (h : processServer fs auto name sc = .ok cfg) :
    cfg.name = name := by
  unfold processServer at h
  cases h1 : pyContains sc "command" with
  | error e => simp [h1] at h
  | ok b =>
    cases b with
    | false => simp [h1] at h
    | true =>
      simp only [h1] at h
      cases h2 : pyIndex sc "command" with
      | error e => simp [h2] at h
      | ok cmd =>
        simp only [h2] at h
        cases h3 : pyGetD sc "args" (Json.arr []) with
        | error e => simp [h3] at h
        | ok args =>
          simp only [h3] at h
          cases h4 : pyGetD sc "env" (Json.obj []) with
          | error e => simp [h4] at h
          | ok env =>
            simp only [h4] at h
            cases auto with
            | false =>
              rw [if_neg Bool.false_ne_true] at h
              cases h
              rfl
            | true =>
              rw [if_pos rfl] at h
              unfold normalize_server_config resolve_command_j at h
              cases cmd with
              | str s =>
                simp only [Except.ok.injEq] at h
                rw [← h]
              | null => simp at h
              | bool b => simp at h
              | num n => simp at h
              | arr xs => simp at h
              | obj fs2 => simp at h

/-- Every descriptor produced by the server loop carries its key as name. -/
theorem parse_servers_names (fs : FS) (auto : Bool) (items : List (String × Json))
    (servers : List (String × MCPServerConfig))
    (h : parse_servers fs auto items = .ok servers) :
    ∀ p ∈ servers, p.2.name = p.1 := by
  induction items generalizing servers with
  | nil =>
    simp only [parse_servers, Except.ok.injEq] at h
    subst h
    intro p hp
    simp at hp
  | cons hd rest ih =>
    obtain ⟨name, sc⟩ := hd
    simp only [parse_servers] at h
    cases hp0 : processServer fs auto name sc with
    | error e => simp [hp0] at h
    | ok c =>
      simp only [hp0] at h
      cases hr0 : parse_servers fs auto rest with
      | error e => simp [hr0] at h
      | ok others =>
        simp only [hr0, Except.ok.injEq] at h
        subst h
        intro p hp
        rcases List.mem_cons.mp hp with heq | hmem
        · subst heq
          exact processServer_name fs auto name sc c hp0
        · exact ih others hr0 p hmem

/-- Auto-resolution relates the two parses of one server definition: same
name, same args, same env; the command was a string and is replaced by its
resolution. -/
theorem processServer_resolve_relation (fs : FS) (name : String) (sc : Json)
    (c c' : MCPServerConfig)
    (h0 : processServer fs false name sc = .ok c)
    (h1 : processServer fs true name sc = .ok c') :
    c'.name = c.name ∧
      (∃ s, c.command = Json.str s ∧ c'.command = Json.str (resolve_command fs s)) ∧
      c'.args = c.args ∧ c'.env = c.env := by
  unfold processServer at h0 h1
  cases hc : pyContains sc "command" with
  | error e => simp [hc] at h0
  | ok b =>
    cases b with
    | false => simp [hc] at h0
    | true =>
      simp only [hc] at h0 h1
      cases hidx : pyIndex sc "command" with
      | error e => simp [hidx] at h0
      | ok cmd =>
        simp only [hidx] at h0 h1
        cases harg : pyGetD sc "args" (Json.arr []) with
        | error e => simp [harg] at h0
        | ok args =>
          simp only [harg] at h0 h1
          cases henv : pyGetD sc "env" (Json.obj []) with
          | error e => simp [henv] at h0
          | ok env =>
            simp only [henv] at h0 h1
            rw [if_neg Bool.false_ne_true] at h0
            simp only [if_true] at h1
            cases h0
            unfold normalize_server_config resolve_command_j at h1
            cases cmd with
            | str s =>
              simp only [Except.ok.injEq] at h1
              rw [← h1]
              exact ⟨rfl, ⟨s, rfl, rfl⟩, rfl, rfl⟩
            | null => simp at h1
            | bool b => simp at h1
            | num n => simp at h1
            | arr xs => simp at h1
            | obj fs2 => simp at h1

/-- Lifting `processServer_resolve_relation` over the server loop. -/
theorem parse_servers_resolve_relation (fs : FS) (items : List (String × Json))
    (servers servers_r : List (String × MCPServerConfig))
    (h0 : parse_servers fs false items = .ok servers)
    (h1 : parse_servers fs true items = .ok servers_r) :
    List.Forall₂ (resolvedRel fs) servers servers_r := by
  induction items generalizing servers servers_r with
  | nil =>
    simp only [parse_servers, Except.ok.injEq] at h0 h1
    subst h0; subst h1
    exact List.Forall₂.nil
  | cons hd rest ih =>
    obtain ⟨name, sc⟩ := hd
    simp only [parse_servers] at h0 h1
    cases hp0 : processServer fs false name sc with
    | error e => simp [hp0] at h0
    | ok c =>
      simp only [hp0] at h0
      cases hp1 : processServer fs true name sc with
      | error e => simp [hp1] at h1
      | ok c' =>
        simp only [hp1] at h1
        cases hr0 : parse_servers fs false rest with
        | error e => simp [hr0] at h0
        | ok others =>
          simp only [hr0, Except.ok.injEq] at h0
          cases hr1 : parse_servers fs true rest with
          | error e => simp [hr1] at h1
          | ok others' =>
            simp only [hr1, Except.ok.injEq] at h1
            subst h0; subst h1
            refine List.Forall₂.cons ?_ (ih others others' hr0 hr1)
            obtain ⟨hn, hcmd, ha, he⟩ :=
              processServer_resolve_relation fs name sc c c' hp0 hp1
            exact ⟨rfl, hn, hcmd, ha, he⟩

/-- Re-parsing the serialized form of parsed descriptors (no resolution)
reproduces the descriptors exactly, provided the descriptors carry their key
as name and mapping-shaped `env` fields. -/
theorem parse_servers_reparse (fs : FS) (servers : List (String × MCPServerConfig))
    (hname : ∀ p ∈ servers, p.2.name = p.1)
    (henv : ∀ p ∈ servers, ∃ ef, p.2.env = Json.obj ef) :
    parse_servers fs false (servers.map (fun p =>
      (p.1, Json.obj ([("command", p.2.command), ("args", p.2.args)]
        ++ (if jsonTruthy p.2.env then [("env", p.2.env)] else []))))) = .ok servers := by
  induction servers with
  | nil => rfl
  | cons hd rest ih =>
    obtain ⟨nm, cfg⟩ := hd
    have hn : cfg.name = nm := hname (nm, cfg) (by simp)
    obtain ⟨ef, he⟩ := henv (nm, cfg) (by simp)
    rw [List.map_cons, parse_servers]
    have hps : processServer fs false nm
        (Json.obj ([("command", cfg.command), ("args", cfg.args)]
          ++ (if jsonTruthy cfg.env then [("env", cfg.env)] else []))) = .ok cfg := by
      cases htr : jsonTruthy cfg.env with
      | true =>
        have hlit : (⟨nm, cfg.command, cfg.args, cfg.env⟩ : MCPServerConfig) = cfg := by
          rw [← hn]
        exact congrArg Except.ok hlit
      | false =>
        have hef : cfg.env = Json.obj [] := by
          rw [he] at htr ⊢
          cases ef with
          | nil => rfl
          | cons x l => simp [jsonTruthy] at htr
        have hlit : (⟨nm, cfg.command, cfg.args, Json.obj []⟩ : MCPServerConfig) = cfg := by
          rw [← hn, ← hef]
        exact congrArg Except.ok hlit
    rw [hps, ih (fun p hp => hname p (by simp [hp])) (fun p hp => henv p (by simp [hp]))]

/-- C5: for a configuration both parses accept (with mapping-shaped `env`
fields, as the data model prescribes), re-parsing the re-serialization of
the unresolved descriptors reproduces them exactly — `command`, `args` and
`env` round-trip — and the auto-resolved parse differs only in `command`,
which becomes the resolution of the original string command; `args` and
`env` are untouched. -/
theorem parse_roundtrip_resolution_stable (fs : FS) (decoded : Option Json)
    (servers servers_r : List (String × MCPServerConfig))
    (h0 : parse_config fs decoded false = .ok servers)
    (h1 : parse_config fs decoded true = .ok servers_r)
    (henv : ∀ p ∈ servers, ∃ ef, p.2.env = Json.obj ef) :
    parse_config fs (some (build_client_config servers)) false = .ok servers ∧
    List.Forall₂ (resolvedRel fs) servers servers_r := by
  obtain ⟨items, hit0, hit1⟩ :
      ∃ items, parse_servers fs false items = .ok servers ∧
        parse_servers fs true items = .ok servers_r := by
    cases decoded with
    | none => simp [parse_config] at h0
    | some j =>
      unfold parse_config at h0 h1
      cases hc : pyContains j "mcpServers" with
      | error e => simp [hc] at h0
      | ok b =>
        cases b with
        | false => simp [hc] at h0
        | true =>
          simp only [hc] at h0 h1
          cases hidx : pyIndex j "mcpServers" with
          | error e => simp [hidx] at h0
          | ok sj =>
            simp only [hidx] at h0 h1
            cases hitems : pyItems sj with
            | error e => simp [hitems] at h0
            | ok items =>
              simp only [hitems] at h0 h1
              exact ⟨items, h0, h1⟩
  constructor
  · have hname := parse_servers_names fs false items servers hit0
    unfold parse_config build_client_config
    simp only [pyContains, pyIndex, pyItems]
    simp only [List.any_cons, List.any_nil, assocLookup]
    exact parse_servers_reparse fs servers hname henv
  · exact parse_servers_resolve_relation fs items servers servers_r hit0 hit1

/-- C5 witness: a two-server configuration, one with a nonempty `env` and a
resolvable `uvx` command, one with `env` absent; both parses succeed, the
serialized form re-parses to the same descriptors, and resolution changed
only the command. -/
theorem parse_roundtrip_resolution_stable_witness :
    parse_config uvxFS (some (build_client_config
      [ ("a", ⟨"a", .str "uvx", .arr [.str "x"], .obj [("K", .str "V")]⟩)
      , ("b", ⟨"b", .str "other", .arr [], .obj []⟩) ])) false
      = .ok [ ("a", ⟨"a", .str "uvx", .arr [.str "x"], .obj [("K", .str "V")]⟩)
            , ("b", ⟨"b", .str "other", .arr [], .obj []⟩) ] ∧
    List.Forall₂ (resolvedRel uvxFS)
      [ ("a", ⟨"a", .str "uvx", .arr [.str "x"], .obj [("K", .str "V")]⟩)
      , ("b", ⟨"b", .str "other", .arr [], .obj []⟩) ]
      [ ("a", ⟨"a", .str "/usr/local/bin/uv", .arr [.str "x"], .obj [("K", .str "V")]⟩)
      , ("b", ⟨"b", .str "other", .arr [], .obj []⟩) ] :=
  parse_roundtrip_resolution_stable uvxFS
    (some (.obj [("mcpServers", .obj
      [ ("a", .obj [("command", .str "uvx"), ("args", .arr [.str "x"]),
                    ("env", .obj [("K", .str "V")])])
      , ("b", .obj [("command", .str "other")]) ])]))
    [ ("a", ⟨"a", .str "uvx", .arr [.str "x"], .obj [("K", .str "V")]⟩)
    , ("b", ⟨"b", .str "other", .arr [], .obj []⟩) ]
    [ ("a", ⟨"a", .str "/usr/local/bin/uv", .arr [.str "x"], .obj [("K", .str "V")]⟩)
    , ("b", ⟨"b", .str "other", .arr [], .obj []⟩) ]
    rfl rfl
    (by intro p hp
        rcases List.mem_cons.mp hp with rfl | hp2
        · exact ⟨[("K", .str "V")], rfl⟩
        · rcases List.mem_singleton.mp hp2 with rfl
          exact ⟨[], rfl⟩)

/-- `results_by_id_from` equals its accumulator-passing form. -/
theorem results_by_id_from_eq_fold (items : List ExecOutcome) :
    results_by_id_from items = results_by_id_fold [] items := by
  suffices h : ∀ acc : List (String × ToolResult),
      items.foldl (fun m item =>
        match item with
        | .ok r => assocInsert m r.tool_call_id r
        | _ => m) acc = results_by_id_fold acc items by
    exact h []
  induction items with
  | nil => intro acc; rfl
  | cons item rest ih =>
    intro acc
    cases item with
    | ok r => rw [List.foldl_cons, results_by_id_fold, ih]
    | noneResult => rw [List.foldl_cons, results_by_id_fold, ih]
    | exn m => rw [List.foldl_cons, results_by_id_fold, ih]

/-- Looking a key up in the folded dict: the last matching result wins, the
accumulator answers only when no gathered outcome matches. -/
theorem assocLookup_results_fold (items : List ExecOutcome)
    (acc : List (String × ToolResult)) (key : String) :
    assocLookup (results_by_id_fold acc items) key
      = match lastOkFor key items with
        | some r => some r
        | none => assocLookup acc key := by
  induction items generalizing acc with
  | nil => simp [results_by_id_fold, lastOkFor]
  | cons item rest ih =>
    cases item with
    | ok r =>
      rw [results_by_id_fold, lastOkFor, ih, assocLookup_assocInsert]
      cases hrest : lastOkFor key rest with
      | some r2 => rfl
      | none => by_cases hk : r.tool_call_id = key <;> simp [okResult, hk]
    | noneResult =>
      rw [results_by_id_fold, lastOkFor, ih]
      cases hrest : lastOkFor key rest with
      | some r2 => rfl
      | none => rfl
    | exn m =>
      rw [results_by_id_fold, lastOkFor, ih]
      cases hrest : lastOkFor key rest with
      | some r2 => rfl
      | none => rfl

/-- Looking a key up in `results_by_id`: the last result dict carrying that
id, if any. -/
theorem assocLookup_results_by_id (items : List ExecOutcome) (key : String) :
    assocLookup (results_by_id_from items) key = lastOkFor key items := by
  rw [results_by_id_from_eq_fold, assocLookup_results_fold]
  cases lastOkFor key items <;> rfl

/-- A successful `execute_tool_call` labels its result with the call's id. -/
theorem execute_tool_call_id (env : ExecEnv) (mapping : List (String × String × String))
    (tc : ToolCall) (r : ToolResult)
    (h : execute_tool_call env mapping tc = .ok r) : r.tool_call_id = tc.id := by
  unfold execute_tool_call at h
  cases hd : env.decodeArgs tc.args with
  | none => simp [hd] at h
  | some a =>
    simp only [hd] at h
    cases hm : assocLookup mapping tc.fname with
    | none => simp [hm] at h
    | some st =>
      simp only [hm] at h
      cases hc : env.callTool st.1 st.2 a with
      | error m => simp [hc] at h
      | ok res =>
        simp only [hc, ExecOutcome.ok.injEq] at h
        subst h
        rfl

/-- No outcome of calls whose ids all differ from `key` lands under `key`. -/
theorem lastOkFor_map_none (env : ExecEnv) (mapping : List (String × String × String))
    (tcs : List ToolCall) (key : String)
    (h : ∀ tc ∈ tcs, tc.id ≠ key) :
    lastOkFor key (tcs.map (execute_tool_call env mapping)) = none := by
  induction tcs with
  | nil => rfl
  | cons a rest ih =>
    rw [List.map_cons, lastOkFor, ih (fun tc h' => h tc (List.mem_cons_of_mem a h'))]
    cases hx : execute_tool_call env mapping a with
    | ok r =>
      have hr := execute_tool_call_id env mapping a r hx
      have hne := h a (List.mem_cons_self a rest)
      simp [okResult, hr, hne]
    | noneResult => rfl
    | exn m => rfl

/-- With pairwise-distinct call ids, the dict entry for a requested call's id
is exactly that call's own successful outcome (or absent). -/
theorem lastOkFor_map_eq (env : ExecEnv) (mapping : List (String × String × String))
    (tcs : List ToolCall) (hnd : (tcs.map ToolCall.id).Nodup)
    (tc : ToolCall) (htc : tc ∈ tcs) :
    lastOkFor tc.id (tcs.map (execute_tool_call env mapping))
      = match execute_tool_call env mapping tc with
        | .ok r => some r
        | _ => none := by
  induction tcs with
  | nil => simp at htc
  | cons a rest ih =>
    simp only [List.map_cons, List.nodup_cons] at hnd
    rw [List.map_cons, lastOkFor]
    rcases List.mem_cons.mp htc with heq | hmem
    · subst heq
      have hnone : lastOkFor tc.id (rest.map (execute_tool_call env mapping)) = none := by
        refine lastOkFor_map_none env mapping rest tc.id ?_
        intro tc' h' hEq
        exact hnd.1 (hEq ▸ List.mem_map_of_mem ToolCall.id h')
      rw [hnone]
      cases hx : execute_tool_call env mapping tc with
      | ok r =>
        have hr := execute_tool_call_id env mapping tc r hx
        simp [okResult, hr]
      | noneResult => rfl
      | exn m => rfl
    · have hne : a.id ≠ tc.id := by
        intro hEq
        exact hnd.1 (hEq ▸ List.mem_map_of_mem ToolCall.id hmem)
      rw [ih hnd.2 hmem]
      cases hx : execute_tool_call env mapping tc with
      | ok r => rfl
      | noneResult =>
        cases hy : execute_tool_call env mapping a with
        | ok r2 =>
          have hr2 := execute_tool_call_id env mapping a r2 hy
          simp [okResult, hr2, hne]
        | noneResult => rfl
        | exn m => rfl
      | exn m =>
        cases hy : execute_tool_call env mapping a with
        | ok r2 =>
          have hr2 := execute_tool_call_id env mapping a r2 hy
          simp [okResult, hr2, hne]
        | noneResult => rfl
        | exn m2 => rfl

/-- If nothing in the gathered outcomes matches `key`, nothing lands there. -/
theorem lastOkFor_none_of_filter_nil (key : String) (items : List ExecOutcome)
    (h : items.filter (okFor key) = []) : lastOkFor key items = none := by
  induction items with
  | nil => rfl
  | cons x rest ih =>
    rw [List.filter_cons] at h
    by_cases hx : okFor key x = true
    · rw [if_pos hx] at h
      simp at h
    · rw [if_neg hx] at h
      rw [lastOkFor, ih h]
      cases x with
      | ok r =>
        have hne : ¬(r.tool_call_id = key) := by simpa [okFor] using hx
        simp [okResult, hne]
      | noneResult => rfl
      | exn m => rfl

/-- If exactly one gathered outcome matches `key`, that result is the dict
entry. -/
theorem lastOkFor_some_of_filter_singleton (key : String) (items : List ExecOutcome)
    (r : ToolResult) (h : items.filter (okFor key) = [.ok r]) :
    lastOkFor key items = some r := by
  induction items with
  | nil => simp at h
  | cons x rest ih =>
    rw [List.filter_cons] at h
    by_cases hx : okFor key x = true
    · rw [if_pos hx] at h
      simp only [List.cons.injEq] at h
      obtain ⟨hx1, hx2⟩ := h
      subst hx1
      rw [lastOkFor, lastOkFor_none_of_filter_nil key rest hx2]
      have hid : r.tool_call_id = key := by simpa [okFor] using hx
      simp [okResult, hid]
    · rw [if_neg hx] at h
      rw [lastOkFor, ih h]

/-- The dict entry for `key` is stable under reordering of the gathered
outcomes, provided at most one outcome matches `key`. -/
theorem lastOkFor_perm (key : String) (items items2 : List ExecOutcome)
    (hperm : items.Perm items2)
    (huniq : (items.filter (okFor key)).length ≤ 1) :
    lastOkFor key items = lastOkFor key items2 := by
  have hf : (items.filter (okFor key)).Perm (items2.filter (okFor key)) :=
    hperm.filter (okFor key)
  cases hcase : items.filter (okFor key) with
  | nil =>
    have h2 : items2.filter (okFor key) = [] := by
      rw [hcase] at hf
      exact (List.Perm.eq_nil hf.symm)
    rw [lastOkFor_none_of_filter_nil key items hcase,
        lastOkFor_none_of_filter_nil key items2 h2]
  | cons x rest =>
    cases rest with
    | cons y t =>
      exfalso
      rw [hcase] at huniq
      simp at huniq
    | nil =>
      have hxmem : x ∈ items.filter (okFor key) := by rw [hcase]; simp
      have hx : okFor key x = true := (List.mem_filter.mp hxmem).2
      cases x with
      | ok r =>
        have h2 : items2.filter (okFor key) = [.ok r] := by
          rw [hcase] at hf
          exact (List.singleton_perm.mp hf).symm
        rw [lastOkFor_some_of_filter_singleton key items r hcase,
            lastOkFor_some_of_filter_singleton key items2 r h2]
      | noneResult => simp [okFor] at hx
      | exn m => simp [okFor] at hx

/-- The outcomes of calls whose ids all differ from `key` contribute nothing
to the filter for `key`. -/
theorem filter_okFor_map_nil (env : ExecEnv) (mapping : List (String × String × String))
    (tcs : List ToolCall) (key : String)
    (h : ∀ tc ∈ tcs, tc.id ≠ key) :
    (tcs.map (execute_tool_call env mapping)).filter (okFor key) = [] := by
  induction tcs with
  | nil => rfl
  | cons a rest ih =>
    rw [List.map_cons, List.filter_cons]
    have hfa : okFor key (execute_tool_call env mapping a) = false := by
      cases hx : execute_tool_call env mapping a with
      | ok r =>
        have hr := execute_tool_call_id env mapping a r hx
        have hne := h a (List.mem_cons_self a rest)
        simp [okFor, hr, hne]
      | noneResult => rfl
      | exn m => rfl
    rw [hfa]
    simp only [Bool.false_eq_true, if_false]
    exact ih (fun tc h' => h tc (List.mem_cons_of_mem a h'))

/-- Under pairwise-distinct call ids, at most one gathered outcome matches
any given key. -/
theorem filter_okFor_map_length_le_one (env : ExecEnv)
    (mapping : List (String × String × String)) (tcs : List ToolCall)
    (hnd : (tcs.map ToolCall.id).Nodup) (key : String) :
    ((tcs.map (execute_tool_call env mapping)).filter (okFor key)).length ≤ 1 := by
  induction tcs with
  | nil => simp
  | cons a rest ih =>
    simp only [List.map_cons, List.nodup_cons] at hnd
    rw [List.map_cons, List.filter_cons]
    by_cases hfa : okFor key (execute_tool_call env mapping a) = true
    · rw [if_pos hfa]
      have hkey : a.id = key := by
        cases hx : execute_tool_call env mapping a with
        | ok r =>
          have hr := execute_tool_call_id env mapping a r hx
          rw [hx] at hfa
          simpa [okFor, hr] using hfa
        | noneResult => rw [hx] at hfa; simp [okFor] at hfa
        | exn m => rw [hx] at hfa; simp [okFor] at hfa
      have hrest : (rest.map (execute_tool_call env mapping)).filter (okFor key) = [] := by
        refine filter_okFor_map_nil env mapping rest key ?_
        intro tc h' hEq
        exact hnd.1 (hkey ▸ hEq ▸ List.mem_map_of_mem ToolCall.id h')
      rw [hrest]
      simp
    · rw [if_neg hfa]
      exact ih hnd.2

/-- The response-building loop, described by the per-call lookup function it
consults: one message per requested call in request order, and one
`tool_calls_made` entry per found result. -/
theorem build_tool_results_map (byId : List (String × ToolResult)) (tcs : List ToolCall)
    (g : ToolCall → Option ToolResult)
    (hlook : ∀ tc ∈ tcs, assocLookup byId tc.id = g tc) :
    build_tool_results byId tcs
      = (tcs.map (fun tc =>
           match g tc with
           | some r => Msg.tool r.tool_call_id r.content
           | none => Msg.tool tc.id failedPlaceholder),
         tcs.filterMap (fun tc => (g tc).map (fun r => (r.server, r.tool)))) := by
  induction tcs with
  | nil => rfl
  | cons tc rest ih =>
    have hrec := ih (fun t ht => hlook t (List.mem_cons_of_mem tc ht))
    rw [build_tool_results, hlook tc (List.mem_cons_self tc rest), hrec,
        List.map_cons, List.filterMap_cons]
    cases hg : g tc with
    | some r => simp
    | none => simp

/-- The message the round-2 loop emits for one call, as a function of that
call's own execution outcome. -/
theorem okResult_outcomeMsg (tc : ToolCall) (o : ExecOutcome) :
    (match (match o with | ExecOutcome.ok r => some r | _ => none) with
      | some r => Msg.tool r.tool_call_id r.content
      | none => Msg.tool tc.id failedPlaceholder) = outcomeMsg tc o := by
  cases o <;> rfl

/-- The regrouping pipeline of `process_ai_query`, for any completion order
of the gathered outcomes: with pairwise-distinct call ids, the emitted tool
messages are exactly one per requested call in request order — the result's
text on success, the fixed placeholder otherwise — and `tool_calls_made`
records exactly the successful calls in request order. -/
theorem build_tool_results_spec (env : ExecEnv) (mapping : List (String × String × String))
    (tcs : List ToolCall) (completed : List ExecOutcome)
    (hperm : completed.Perm (tcs.map (execute_tool_call env mapping)))
    (hnd : (tcs.map ToolCall.id).Nodup) :
    build_tool_results (results_by_id_from completed) tcs
      = (tcs.map (fun tc => outcomeMsg tc (execute_tool_call env mapping tc)),
         tcs.filterMap (fun tc =>
           match execute_tool_call env mapping tc with
           | .ok r => some (r.server, r.tool)
           | _ => none)) := by
  have hlook : ∀ tc ∈ tcs, assocLookup (results_by_id_from completed) tc.id
      = match execute_tool_call env mapping tc with
        | .ok r => some r
        | _ => none := by
    intro tc htc
    rw [assocLookup_results_by_id]
    rw [lastOkFor_perm tc.id completed (tcs.map (execute_tool_call env mapping)) hperm ?hu]
    · exact lastOkFor_map_eq env mapping tcs hnd tc htc
    case hu =>
      have hlen : (completed.filter (okFor tc.id)).length
          = ((tcs.map (execute_tool_call env mapping)).filter (okFor tc.id)).length :=
        (hperm.filter (okFor tc.id)).length_eq
      rw [hlen]
      exact filter_okFor_map_length_le_one env mapping tcs hnd tc.id
  rw [build_tool_results_map (results_by_id_from completed) tcs _ hlook]
  refine congrArg₂ Prod.mk ?_ ?_
  · refine List.map_congr_left ?_
    intro tc htc
    exact okResult_outcomeMsg tc (execute_tool_call env mapping tc)
  · refine List.filterMap_congr ?_
    intro tc htc
    cases execute_tool_call env mapping tc <;> rfl

/-- All messages built by the response loop are tool-role messages. -/
theorem build_tool_results_all_tool (byId : List (String × ToolResult))
    (tcs : List ToolCall) :
    ∀ m ∈ (build_tool_results byId tcs).1, msgIsTool m = true := by
  induction tcs with
  | nil => intro m hm; simp [build_tool_results] at hm
  | cons tc rest ih =>
    intro m hm
    rw [build_tool_results] at hm
    cases hx : assocLookup byId tc.id with
    | some r =>
      rw [hx] at hm
      simp only [List.mem_cons] at hm
      rcases hm with rfl | h2
      · rfl
      · exact ih m h2
    | none =>
      rw [hx] at hm
      simp only [List.mem_cons] at hm
      rcases hm with rfl | h2
      · rfl
      · exact ih m h2

/-- In the tool-call branch (non-empty tool calls, connection available),
`process_ai_query` sends exactly `round2Conversation` in round 2. -/
theorem process_ai_query_round2 (env : AIEnv) (cache : Cache) (cfg q : String)
    (tools : List (String × List ToolInfo))
    (hF : env.round1.tool_calls.isEmpty = false)
    (entry : Entry) (cache' : Cache) (eff : Effects)
    (hconn : get_or_create_connection env.conn cache cfg = (.ok entry, cache', eff)) :
    (process_ai_query env cache cfg q tools).round2_messages
      = some (round2Conversation env q tools) := by
  unfold process_ai_query
  simp only [hF, Bool.false_eq_true, if_false, hconn]
  rfl

/-- The tool-role messages of the round-2 conversation are exactly the
response loop's output (the three leading messages are not tool-role). -/
theorem toolMessages_round2Conversation (env : AIEnv) (q : String)
    (tools : List (String × List ToolInfo)) :
    toolMessages (round2Conversation env q tools)
      = (build_tool_results
          (results_by_id_from (env.round1.tool_calls.map
            (execute_tool_call env.exec (build_tools_schema tools).2)))
          env.round1.tool_calls).1 := by
  have hall := build_tool_results_all_tool
    (results_by_id_from (env.round1.tool_calls.map
      (execute_tool_call env.exec (build_tools_schema tools).2)))
    env.round1.tool_calls
  unfold round2Conversation toolMessages
  rw [List.filter_append, List.filter_append]
  rw [List.filter_eq_self.mpr hall]
  rfl

/-- Mapping calls to messages that embed their ids: each image occurs exactly
once when the ids are pairwise distinct. -/
theorem count_map_msg (tcs : List ToolCall) (g : ToolCall → Msg)
    (hg : ∀ t1 t2, g t1 = g t2 → t1.id = t2.id)
    (hnd : (tcs.map ToolCall.id).Nodup)
    (tc : ToolCall) (htc : tc ∈ tcs) :
    (tcs.map g).count (g tc) = 1 := by
  induction tcs with
  | nil => simp at htc
  | cons a rest ih =>
    simp only [List.map_cons, List.nodup_cons] at hnd
    rw [List.map_cons, List.count_cons]
    rcases List.mem_cons.mp htc with heq | hmem
    · subst heq
      have hzero : (rest.map g).count (g tc) = 0 := by
        rw [List.count_eq_zero]
        intro hmem2
        obtain ⟨t, ht, hgt⟩ := List.mem_map.mp hmem2
        have hid := hg t tc hgt
        have : tc.id ∈ rest.map ToolCall.id := by
          rw [← hid]; exact List.mem_map_of_mem ToolCall.id ht
        exact hnd.1 this
      rw [hzero]
      simp
    · have hne : ¬(g a = g tc) := by
        intro hEq
        have hid := hg a tc hEq
        have : a.id ∈ rest.map ToolCall.id := by
          rw [hid]; exact List.mem_map_of_mem ToolCall.id hmem
        exact hnd.1 this
      rw [ih hnd.2 hmem]
      simp [hne]

/-- C1: in a round where the model requests tool calls (with their
provider-assigned ids pairwise distinct) and the connection is available,
the round-2 conversation contains exactly as many tool-role messages as
requested calls, and for every requested call exactly one of them is that
call's message — the execution result's text if its call succeeded, the
fixed placeholder if it threw or its function name was missing from the
mapping; a sibling's failure never drops a call's response. -/
theorem query_one_response_per_requested_call (env : AIEnv) (cache : Cache) (cfg q : String)
    (tools : List (String × List ToolInfo))
    (hnd : (env.round1.tool_calls.map ToolCall.id).Nodup)
    (hne : env.round1.tool_calls ≠ [])
    (entry : Entry) (cache' : Cache) (eff : Effects)
    (hconn : get_or_create_connection env.conn cache cfg = (.ok entry, cache', eff)) :
    ∃ msgs, (process_ai_query env cache cfg q tools).round2_messages = some msgs ∧
      (toolMessages msgs).length = env.round1.tool_calls.length ∧
      ∀ tc ∈ env.round1.tool_calls,
        (toolMessages msgs).count
          (outcomeMsg tc (execute_tool_call env.exec (build_tools_schema tools).2 tc)) = 1 := by
  have hF : env.round1.tool_calls.isEmpty = false := by
    cases hl : env.round1.tool_calls with
    | nil => exact absurd hl hne
    | cons a l => rfl
  have hspec : (build_tool_results
      (results_by_id_from (env.round1.tool_calls.map
        (execute_tool_call env.exec (build_tools_schema tools).2)))
      env.round1.tool_calls).1
      = env.round1.tool_calls.map (fun tc =>
          outcomeMsg tc (execute_tool_call env.exec (build_tools_schema tools).2 tc)) := by
    rw [build_tool_results_spec env.exec (build_tools_schema tools).2 env.round1.tool_calls
      (env.round1.tool_calls.map (execute_tool_call env.exec (build_tools_schema tools).2))
      (List.Perm.refl _) hnd]
  refine ⟨round2Conversation env q tools,
    process_ai_query_round2 env cache cfg q tools hF entry cache' eff hconn, ?_, ?_⟩
  · rw [toolMessages_round2Conversation, hspec, List.length_map]
  · intro tc htc
    rw [toolMessages_round2Conversation, hspec]
    refine count_map_msg env.round1.tool_calls
      (fun t => outcomeMsg t (execute_tool_call env.exec (build_tools_schema tools).2 t))
      ?_ hnd tc htc
    have hgid : ∀ t : ToolCall,
        (match outcomeMsg t (execute_tool_call env.exec (build_tools_schema tools).2 t) with
         | Msg.tool i _ => i
         | _ => "") = t.id := by
      intro t
      cases hx : execute_tool_call env.exec (build_tools_schema tools).2 t with
      | ok r => simp [outcomeMsg, execute_tool_call_id _ _ t r hx]
      | noneResult => rfl
      | exn m => rfl
    intro t1 t2 hEq
    rw [← hgid t1, ← hgid t2]
    exact congrArg (fun m => match m with | Msg.tool i _ => i | _ => "") hEq

/-- C1 witness: two requested calls with distinct ids, the first succeeding
and the second throwing; both get exactly one tool message each. -/
theorem query_one_response_per_requested_call_witness :
    ∃ msgs, (process_ai_query demoAIEnv [] "demo" "q" demoTools).round2_messages = some msgs ∧
      (toolMessages msgs).length = demoAIEnv.round1.tool_calls.length ∧
      ∀ tc ∈ demoAIEnv.round1.tool_calls,
        (toolMessages msgs).count
          (outcomeMsg tc (execute_tool_call demoAIEnv.exec
            (build_tools_schema demoTools).2 tc)) = 1 :=
  query_one_response_per_requested_call demoAIEnv [] "demo" "q" demoTools
    (by decide) (by decide) demoEntry [("demo", demoEntry)] ⟨1, 1, 1⟩ rfl

/-- C3: in a round where the model requests tool calls (pairwise-distinct
ids) and the connection is available, the tool messages of the round-2
conversation equal what regrouping ANY completion order of the gathered
outcomes produces, namely one message per requested call in exactly the
order the model listed the calls, correlated by call id. -/
theorem query_preserves_request_order (env : AIEnv) (cache : Cache) (cfg q : String)
    (tools : List (String × List ToolInfo))
    (hnd : (env.round1.tool_calls.map ToolCall.id).Nodup)
    (hne : env.round1.tool_calls ≠ [])
    (entry : Entry) (cache' : Cache) (eff : Effects)
    (hconn : get_or_create_connection env.conn cache cfg = (.ok entry, cache', eff))
    (completed : List ExecOutcome)
    (hperm : completed.Perm (env.round1.tool_calls.map
        (execute_tool_call env.exec (build_tools_schema tools).2))) :
    ∃ msgs, (process_ai_query env cache cfg q tools).round2_messages = some msgs ∧
      toolMessages msgs
        = (build_tool_results (results_by_id_from completed) env.round1.tool_calls).1 ∧
      toolMessages msgs = env.round1.tool_calls.map (fun tc =>
        outcomeMsg tc (execute_tool_call env.exec (build_tools_schema tools).2 tc)) := by
  have hF : env.round1.tool_calls.isEmpty = false := by
    cases hl : env.round1.tool_calls with
    | nil => exact absurd hl hne
    | cons a l => rfl
  have hraw : (build_tool_results
      (results_by_id_from (env.round1.tool_calls.map
        (execute_tool_call env.exec (build_tools_schema tools).2)))
      env.round1.tool_calls).1
      = env.round1.tool_calls.map (fun tc =>
          outcomeMsg tc (execute_tool_call env.exec (build_tools_schema tools).2 tc)) := by
    rw [build_tool_results_spec env.exec (build_tools_schema tools).2 env.round1.tool_calls
      (env.round1.tool_calls.map (execute_tool_call env.exec (build_tools_schema tools).2))
      (List.Perm.refl _) hnd]
  have hcompleted : (build_tool_results (results_by_id_from completed)
      env.round1.tool_calls).1
      = env.round1.tool_calls.map (fun tc =>
          outcomeMsg tc (execute_tool_call env.exec (build_tools_schema tools).2 tc)) := by
    rw [build_tool_results_spec env.exec (build_tools_schema tools).2 env.round1.tool_calls
      completed hperm hnd]
  refine ⟨round2Conversation env q tools,
    process_ai_query_round2 env cache cfg q tools hF entry cache' eff hconn, ?_, ?_⟩
  · rw [toolMessages_round2Conversation, hraw, ← hcompleted]
  · rw [toolMessages_round2Conversation, hraw]

/-- C3 witness: the two demo calls with the gathered outcomes presented in
reversed completion order still regroup to the requested order. -/
theorem query_preserves_request_order_witness :
    ∃ msgs, (process_ai_query demoAIEnv [] "demo" "q" demoTools).round2_messages = some msgs ∧
      toolMessages msgs
        = (build_tool_results
            (results_by_id_from
              [ExecOutcome.exn "boom",
               ExecOutcome.ok ⟨"call1", "ok:srv:echo", "srv", "echo", "srv_echo"⟩])
            demoAIEnv.round1.tool_calls).1 ∧
      toolMessages msgs = demoAIEnv.round1.tool_calls.map (fun tc =>
        outcomeMsg tc (execute_tool_call demoAIEnv.exec
          (build_tools_schema demoTools).2 tc)) :=
  query_preserves_request_order demoAIEnv [] "demo" "q" demoTools
    (by decide) (by decide) demoEntry [("demo", demoEntry)] ⟨1, 1, 1⟩ rfl
    [ExecOutcome.exn "boom",
     ExecOutcome.ok ⟨"call1", "ok:srv:echo", "srv", "echo", "srv_echo"⟩]
    (by decide)
